import Mathlib

/-!
Shallow embedding of `bounded-collections/src/bounded_vec.rs` (`BoundedVec`,
`BoundedSlice` and their bound-checked codec adapter).

Modelling conventions:
* the inner `Vec<T>` of a `BoundedVec<T, S>` is a `List α`;
* the type-level bound `S::get() as usize` is an explicit `b : Nat` argument;
* a Rust panic (e.g. `Vec::insert` with `index > len`) is `Option.none`;
* `Result<A, E>` is `Except E A`;
* the external SCALE codec (`Compact::<u32>::decode`, `decode_vec_with_len`'s
  per-element decoding) is a black box per the spec, so the decoders are
  parameters threading the remaining byte stream explicitly.
-/

namespace BoundedCollections

/-- Rust `Vec::insert(index, element)`: splice `element` in at `index`.
Callers in the source check `index <= len` before calling (out-of-range is a
panic, modelled at the call sites that can reach it). -/
def vecInsert (index : Nat) (element : α) (l : List α) : List α :=
  l.take index ++ element :: l.drop index

/-- Rust `Vec::truncate(n)`: keep the first `n` elements. -/
def vecTruncate (n : Nat) (l : List α) : List α :=
  l.take n

/-- Rust `Vec::resize(size, value)`: truncate or grow with clones of `value`. -/
def vecResize (l : List α) (size : Nat) (value : α) : List α :=
  if size ≤ l.length then l.take size else l ++ List.replicate (size - l.length) value

/-- Rust `slice::rotate_left(1)` on a whole (nonempty) slice. -/
def rotLeft1 (l : List α) : List α :=
  l.drop 1 ++ l.take 1

/-- Rust `slice::rotate_right(1)` on a whole (nonempty) slice. -/
def rotRight1 (l : List α) : List α :=
  l.drop (l.length - 1) ++ l.take (l.length - 1)

/-- Rust `self[i..j].rotate_left(1)`: rotate the sub-range `[i, j)` left by one,
leaving the rest of the list in place. -/
def segRotLeft1 (i j : Nat) (l : List α) : List α :=
  l.take i ++ rotLeft1 ((l.drop i).take (j - i)) ++ l.drop j

/-- Rust `self[i..j].rotate_right(1)`: rotate the sub-range `[i, j)` right by
one, leaving the rest of the list in place. -/
def segRotRight1 (i j : Nat) (l : List α) : List α :=
  l.take i ++ rotRight1 ((l.drop i).take (j - i)) ++ l.drop j

/-- Rust `slice::rotate_left(mid)` (`mid <= len`, checked by callers). -/
def sliceRotLeft (mid : Nat) (l : List α) : List α :=
  l.drop mid ++ l.take mid

/-- Rust `slice::rotate_right(k)` (`k <= len`, checked by callers). -/
def sliceRotRight (k : Nat) (l : List α) : List α :=
  l.drop (l.length - k) ++ l.take (l.length - k)

/-- Rust `usize::MAX` on a 64-bit target (used by `BoundedVec::slide`'s guard). -/
def USIZE_MAX : Nat := 2 ^ 64 - 1

namespace BoundedVec

/-- Rust `BoundedVec::new()`: empty vector. -/
def new : List α := []

/-- Rust `impl TryFrom<Vec<T>> for BoundedVec`: `Ok` iff `t.len() <= bound`,
otherwise the input is handed back unchanged. -/
def try_from (b : Nat) (t : List α) : Except (List α) (List α) :=
  if t.length ≤ b then Except.ok t else Except.error t

/-- Rust `BoundedVec::truncate_from(v)`: truncate to the bound, then wrap. -/
def truncate_from (b : Nat) (v : List α) : List α :=
  vecTruncate b v

/-- Rust `TryCollect for I` (exact-size iterator modelled by the list of items it
would yield): reject before materializing when the reported length exceeds the
bound. -/
def try_collect (b : Nat) (items : List α) : Except String (List α) :=
  if items.length > b then Except.error "iterator length too big" else Except.ok items

/-- Rust `BoundedVec::is_full()`: `self.len() >= Self::bound()`. -/
def is_full (b : Nat) (l : List α) : Bool :=
  b ≤ l.length

/-- Rust `BoundedVec::try_push(element)`: push iff `self.len() < Self::bound()`,
else `Err(element)` with the vector untouched. -/
def try_push (b : Nat) (l : List α) (element : α) : Except α (List α) :=
  if l.length < b then Except.ok (l ++ [element]) else Except.error element

/-- Rust `BoundedVec::try_insert(index, element)`: capacity check first; within
capacity it delegates to `Vec::insert`, which panics (`none`) when
`index > self.len()`; at capacity it returns `Err(element)`. -/
def try_insert (b : Nat) (l : List α) (index : Nat) (element : α) :
    Option (Except α (List α)) :=
  if l.length < b then
    if index ≤ l.length then some (Except.ok (vecInsert index element l)) else none
  else
    some (Except.error element)

/-- Rust `BoundedVec::try_extend(with)`: extend iff
`with.len() + self.len() <= bound` (saturating add on `usize`, exact on `Nat`),
else `Err(())` with the vector and the iterator untouched. -/
def try_extend (b : Nat) (l : List α) (w : List α) : Except Unit (List α) :=
  if w.length + l.length ≤ b then Except.ok (l ++ w) else Except.error ()

/-- Rust `BoundedVec::try_append(other)`: on success `other` is drained into `self`
(the pair is the final `(self, other)`); on failure both are untouched. -/
def try_append (b : Nat) (l : List α) (other : List α) :
    Except Unit (List α × List α) :=
  if other.length + l.length ≤ b then Except.ok (l ++ other, []) else Except.error ()

/-- Rust `BoundedVec::try_rotate_left(mid)`: reject iff `mid > self.len()`. -/
def try_rotate_left (l : List α) (mid : Nat) : Except Unit (List α) :=
  if l.length < mid then Except.error () else Except.ok (sliceRotLeft mid l)

/-- Rust `BoundedVec::try_rotate_right(mid)`: reject iff `mid > self.len()`. -/
def try_rotate_right (l : List α) (mid : Nat) : Except Unit (List α) :=
  if l.length < mid then Except.error () else Except.ok (sliceRotRight mid l)

/-- Rust `BoundedVec::try_mutate(mutate)`: run the mutation, then keep the result
only if it still satisfies the bound. -/
def try_mutate (b : Nat) (l : List α) (mutate : List α → List α) : Option (List α) :=
  let mutated := mutate l
  if mutated.length ≤ b then some mutated else none

/-- Rust `BoundedVec::force_push(element)`: no-op when the bound is zero, else
truncate to `bound - 1` and push. -/
def force_push (b : Nat) (l : List α) (element : α) : List α :=
  if 0 < b then vecTruncate (b - 1) l ++ [element] else l

/-- Rust `BoundedVec::bounded_resize(size, value)`: clamp `size` to the bound, then
ordinary `Vec::resize`. -/
def bounded_resize (b : Nat) (l : List α) (size : Nat) (value : α) : List α :=
  vecResize l (min size b) value

/-- Rust `BoundedVec::force_insert_keep_right(index, element)`: reject when
`bound < index` or `len < index`; plain insert below capacity; at capacity,
reject `index == 0`, otherwise swap `element` into position 0 and rotate
`self[0..index]` left by one, returning the evicted old head. -/
def force_insert_keep_right (b : Nat) (l : List α) (index : Nat) (element : α) :
    Except α (Option α × List α) :=
  if b < index ∨ l.length < index then Except.error element
  else if l.length < b then Except.ok (none, vecInsert index element l)
  else if index = 0 then Except.error element
  else
    match l with
    | [] => Except.error element
    | x :: xs => Except.ok (some x, segRotLeft1 0 index (element :: xs))

/-- Rust `BoundedVec::force_insert_keep_left(index, element)`: reject when
`bound < index`, `len < index` or `bound == 0`; reject the no-op case
`bound == index && len <= bound`; when full, truncate to the bound and pop the
last element before inserting, returning it as evicted. -/
def force_insert_keep_left (b : Nat) (l : List α) (index : Nat) (element : α) :
    Except α (Option α × List α) :=
  if b < index ∨ l.length < index ∨ b = 0 then Except.error element
  else if b = index ∧ l.length ≤ b then Except.error element
  else if is_full b l then
    let t := vecTruncate b l
    Except.ok (t.getLast?, vecInsert index element t.dropLast)
  else
    Except.ok (none, vecInsert index element l)

/-- Rust `BoundedVec::slide(index, insert_position)`: guards against panics and
no-ops, then relocates by rotating the sub-range between the two positions
(right by one when moving backward, left by one when moving forward). Returns
whether anything moved, paired with the final contents. -/
def slide (l : List α) (index insert_position : Nat) : Bool × List α :=
  if l.length ≤ index ∨ l.length < insert_position ∨ index = USIZE_MAX then (false, l)
  else if index = insert_position ∨ index + 1 = insert_position then (false, l)
  else if insert_position < index ∧ index < l.length then
    (true, segRotRight1 insert_position (index + 1) l)
  else if 0 < insert_position ∧ index + 1 < insert_position then
    (true, segRotLeft1 index insert_position l)
  else
    (false, l)

end BoundedVec

/-- Rust `decode_vec_with_len(input, len)` of the external codec: decode exactly
`len` elements in sequence, threading the remaining input. -/
def decodeVecWithLen (decElem : List Nat → Option (α × List Nat)) :
    Nat → List Nat → Option (List α × List Nat)
  | 0, input => some ([], input)
  | n + 1, input =>
    match decElem input with
    | none => none
    | some (x, rest) =>
      match decodeVecWithLen decElem n rest with
      | none => none
      | some (xs, rest2) => some (x :: xs, rest2)

/-- Rust `impl Decode for BoundedVec` (`bounded_vec.rs` lines 890-905): decode the
`Compact<u32>` length prefix (`decLen`, an external black box), fail with the
distinct limit error when it exceeds the bound, otherwise delegate to
`decode_vec_with_len` with the validated length. The second component is the
remaining input stream. -/
def decodeBoundedVec (b : Nat) (decLen : List Nat → Option (Nat × List Nat))
    (decElem : List Nat → Option (α × List Nat)) (input : List Nat) :
    Except String (List α) × List Nat :=
  match decLen input with
  | none => (Except.error "could not decode length prefix", input)
  | some (len, rest) =>
    if b < len then (Except.error "BoundedVec exceeds its limit", rest)
    else
      match decodeVecWithLen decElem len rest with
      | none => (Except.error "element decoding failed", rest)
      | some (xs, rest2) => (Except.ok xs, rest2)

/-- Rust `BoundedVec<T, S>` as the data type: contents plus invariant I1 for the
resolved bound `b`. The bound tag is zero-sized, so only the resolved value
appears. -/
structure BVec (α : Type) (b : Nat) where
  toList : List α
  hlen : toList.length ≤ b

/-- Rust `BoundedSlice<'a, T, S>`: a bounded read-only view. -/
structure BSlice (α : Type) (b : Nat) where
  toList : List α
  hlen : toList.length ≤ b

/-- Rust `impl PartialEq<BoundedVec<T, BoundRhs>> for BoundedVec<T, BoundSelf>`:
`self.0 == other.0`. -/
def bvecEq [BEq α] (x : BVec α b₁) (y : BVec α b₂) : Bool :=
  x.toList == y.toList

/-- Rust `impl PartialEq<BoundedSlice<'a, T, BoundRhs>> for BoundedVec<T, BoundSelf>`:
`self.0 == other.0`. -/
def bvecSliceEq [BEq α] (x : BVec α b₁) (y : BSlice α b₂) : Bool :=
  x.toList == y.toList

/-- Rust `impl PartialEq<BoundedSlice<'a, T, BoundRhs>> for BoundedSlice<'a, T, BoundSelf>`:
`self.0 == other.0`. -/
def bsliceEq [BEq α] (x : BSlice α b₁) (y : BSlice α b₂) : Bool :=
  x.toList == y.toList

/-- Lexicographic slice comparison, as Rust's `<[T]>::partial_cmp`: compare
elementwise with the element ordering, ties broken by length. -/
def listPartialCmp (pcmp : α → α → Option Ordering) :
    List α → List α → Option Ordering
  | [], [] => some Ordering.eq
  | [], _ :: _ => some Ordering.lt
  | _ :: _, [] => some Ordering.gt
  | x :: xs, y :: ys =>
    match pcmp x y with
    | some Ordering.eq => listPartialCmp pcmp xs ys
    | o => o

/-- Rust `impl PartialOrd<BoundedVec<T, BoundRhs>> for BoundedVec<T, BoundSelf>`:
`self.0.partial_cmp(&other.0)`. -/
def bvecPartialCmp (pcmp : α → α → Option Ordering) (x : BVec α b₁) (y : BVec α b₂) :
    Option Ordering :=
  listPartialCmp pcmp x.toList y.toList

/-- Rust `impl PartialOrd<BoundedSlice<..>> for BoundedSlice<..>`:
`self.0.partial_cmp(other.0)`. -/
def bslicePartialCmp (pcmp : α → α → Option Ordering) (x : BSlice α b₁)
    (y : BSlice α b₂) : Option Ordering :=
  listPartialCmp pcmp x.toList y.toList

/-- The checked mutators of `BoundedVec`, as an operation alphabet for
operation-sequence properties. -/
inductive CheckedOp (α : Type) where
  | push (x : α)
  | insert (i : Nat) (x : α)
  | extend (w : List α)
  | append (other : List α)
  | rotl (mid : Nat)
  | rotr (mid : Nat)

/-- Apply one checked mutator to the container, keeping the old contents on a
capacity rejection (the mutators are no-ops on `Err`); `none` is the panic of
`try_insert` with an out-of-range index. -/
def checkedStep (b : Nat) (l : List α) : CheckedOp α → Option (List α)
  | CheckedOp.push x =>
    some (match BoundedVec.try_push b l x with
      | Except.ok r => r
      | Except.error _ => l)
  | CheckedOp.insert i x =>
    match BoundedVec.try_insert b l i x with
    | none => none
    | some (Except.ok r) => some r
    | some (Except.error _) => some l
  | CheckedOp.extend w =>
    some (match BoundedVec.try_extend b l w with
      | Except.ok r => r
      | Except.error _ => l)
  | CheckedOp.append other =>
    some (match BoundedVec.try_append b l other with
      | Except.ok (r, _) => r
      | Except.error _ => l)
  | CheckedOp.rotl mid =>
    some (match BoundedVec.try_rotate_left l mid with
      | Except.ok r => r
      | Except.error _ => l)
  | CheckedOp.rotr mid =>
    some (match BoundedVec.try_rotate_right l mid with
      | Except.ok r => r
      | Except.error _ => l)

/-- Run a sequence of checked mutators from a starting state. -/
def runChecked (b : Nat) : List (CheckedOp α) → List α → Option (List α)
  | [], l => some l
  | op :: ops, l =>
    match checkedStep b l op with
    | none => none
    | some l₂ => runChecked b ops l₂

end BoundedCollections

namespace BoundedCollections

theorem vecInsert_length (index : Nat) (x : α) (l : List α) (h : index ≤ l.length) :
    (vecInsert index x l).length = l.length + 1 := by
  simp [vecInsert]
  omega

theorem rotLeft1_length (l : List α) : (rotLeft1 l).length = l.length := by
  simp [rotLeft1]
  omega

theorem rotRight1_length (l : List α) : (rotRight1 l).length = l.length := by
  simp [rotRight1]

theorem segRotLeft1_length (i j : Nat) (l : List α) (hij : i ≤ j) (hj : j ≤ l.length) :
    (segRotLeft1 i j l).length = l.length := by
  simp [segRotLeft1, rotLeft1_length]
  omega

theorem segRotRight1_length (i j : Nat) (l : List α) (hij : i ≤ j) (hj : j ≤ l.length) :
    (segRotRight1 i j l).length = l.length := by
  simp [segRotRight1, rotRight1_length]
  omega

theorem decodeVecWithLen_length (decElem : List Nat → Option (α × List Nat)) :
    ∀ (n : Nat) (input : List Nat) (xs : List α) (rest : List Nat),
      decodeVecWithLen decElem n input = some (xs, rest) → xs.length = n := by
  intro n
  induction n with
  | zero =>
    intro input xs rest h
    simp [decodeVecWithLen] at h
    simp [h.1]
  | succ k ih =>
    intro input xs rest h
    cases hd : decElem input with
    | none => simp [decodeVecWithLen, hd] at h
    | some p =>
      obtain ⟨x, r⟩ := p
      cases hrec : decodeVecWithLen decElem k r with
      | none => simp [decodeVecWithLen, hd, hrec] at h
      | some q =>
        obtain ⟨ys, r₂⟩ := q
        simp [decodeVecWithLen, hd, hrec] at h
        obtain ⟨h1, _⟩ := h
        subst h1
        simp [ih r ys r₂ hrec]

theorem try_push_ok_length (b : Nat) (l r : List α) (x : α)
    (h : BoundedVec.try_push b l x = Except.ok r) : r.length ≤ b := by
  unfold BoundedVec.try_push at h
  split_ifs at h with hc
  cases h
  simp
  omega

theorem try_insert_ok_length (b : Nat) (l r : List α) (i : Nat) (x : α)
    (h : BoundedVec.try_insert b l i x = some (Except.ok r)) : r.length ≤ b := by
  unfold BoundedVec.try_insert at h
  split_ifs at h with h1 h2
  · simp at h
    rw [← h, vecInsert_length i x l h2]
    omega
  · simp at h

theorem try_extend_ok_length (b : Nat) (l w r : List α)
    (h : BoundedVec.try_extend b l w = Except.ok r) : r.length ≤ b := by
  unfold BoundedVec.try_extend at h
  split_ifs at h with hc
  cases h
  simp
  omega

theorem try_append_ok_length (b : Nat) (l other r rem : List α)
    (h : BoundedVec.try_append b l other = Except.ok (r, rem)) : r.length ≤ b := by
  unfold BoundedVec.try_append at h
  split_ifs at h with hc
  simp at h
  rw [← h.1]
  simp
  omega

theorem try_rotate_left_ok_length (l r : List α) (mid : Nat)
    (h : BoundedVec.try_rotate_left l mid = Except.ok r) : r.length = l.length := by
  unfold BoundedVec.try_rotate_left at h
  split_ifs at h with hc
  cases h
  simp [sliceRotLeft]
  omega

theorem try_rotate_right_ok_length (l r : List α) (mid : Nat)
    (h : BoundedVec.try_rotate_right l mid = Except.ok r) : r.length = l.length := by
  unfold BoundedVec.try_rotate_right at h
  split_ifs at h with hc
  cases h
  simp [sliceRotRight]

theorem checkedStep_length (b : Nat) (l l₂ : List α) (op : CheckedOp α)
    (hl : l.length ≤ b) (h : checkedStep b l op = some l₂) : l₂.length ≤ b := by
  cases op with
  | push x =>
    simp only [checkedStep, Option.some.injEq] at h
    cases hp : BoundedVec.try_push b l x with
    | ok r => rw [hp] at h; rw [← h]; exact try_push_ok_length b l r x hp
    | error e => rw [hp] at h; rw [← h]; exact hl
  | insert i x =>
    simp only [checkedStep] at h
    cases hp : BoundedVec.try_insert b l i x with
    | none => rw [hp] at h; simp at h
    | some res =>
      rw [hp] at h
      cases res with
      | ok r => simp at h; rw [← h]; exact try_insert_ok_length b l r i x hp
      | error e => simp at h; rw [← h]; exact hl
  | extend w =>
    simp only [checkedStep, Option.some.injEq] at h
    cases hp : BoundedVec.try_extend b l w with
    | ok r => rw [hp] at h; rw [← h]; exact try_extend_ok_length b l w r hp
    | error e => rw [hp] at h; rw [← h]; exact hl
  | append other =>
    simp only [checkedStep, Option.some.injEq] at h
    cases hp : BoundedVec.try_append b l other with
    | ok p =>
      obtain ⟨r, rem⟩ := p
      rw [hp] at h
      rw [← h]
      exact try_append_ok_length b l other r rem hp
    | error e => rw [hp] at h; rw [← h]; exact hl
  | rotl mid =>
    simp only [checkedStep, Option.some.injEq] at h
    cases hp : BoundedVec.try_rotate_left l mid with
    | ok r =>
      rw [hp] at h
      rw [← h, try_rotate_left_ok_length l r mid hp]
      exact hl
    | error e => rw [hp] at h; rw [← h]; exact hl
  | rotr mid =>
    simp only [checkedStep, Option.some.injEq] at h
    cases hp : BoundedVec.try_rotate_right l mid with
    | ok r =>
      rw [hp] at h
      rw [← h, try_rotate_right_ok_length l r mid hp]
      exact hl
    | error e => rw [hp] at h; rw [← h]; exact hl

end BoundedCollections

namespace BoundedCollections

/-- C2: decode reads the length prefix first; for every input whose declared
length `L` exceeds the bound, it fails with the distinct "exceeds bound" error
and consumes zero bytes beyond the length prefix (the remaining stream is
exactly the post-prefix rest, and the result does not depend on the element
decoder, so no element bytes are read); only when `L` is within the bound does
it delegate to element-by-element decoding with the validated length. -/
theorem claim_C2_decode_bound_check {α : Type} (b : Nat)
    (decLen : List Nat → Option (Nat × List Nat))
    (decElem decElem' : List Nat → Option (α × List Nat)) (input : List Nat)
    (L : Nat) (rest : List Nat) (hlen : decLen input = some (L, rest)) :
    (b < L →
        decodeBoundedVec b decLen decElem input
          = (Except.error "BoundedVec exceeds its limit", rest)
        ∧ decodeBoundedVec b decLen decElem input
          = decodeBoundedVec b decLen decElem' input)
    ∧ (L ≤ b →
        decodeBoundedVec b decLen decElem input
          = match decodeVecWithLen decElem L rest with
            | none => (Except.error "element decoding failed", rest)
            | some (xs, rest₂) => (Except.ok xs, rest₂)) := by
  constructor
  · intro hgt
    constructor
    · simp [decodeBoundedVec, hlen, hgt]
    · simp [decodeBoundedVec, hlen, hgt]
  · intro hle
    have hnot : ¬ b < L := by omega
    cases hd : decodeVecWithLen decElem L rest with
    | none => simp [decodeBoundedVec, hlen, hnot, hd]
    | some q =>
      obtain ⟨xs, r₂⟩ := q
      simp [decodeBoundedVec, hlen, hnot, hd]

/-- Witness for C2 at a concrete oversized input: bound 2, declared length 5,
two element bytes left untouched. -/
theorem claim_C2_witness :
    decodeBoundedVec 2 (fun i => match i with | x :: r => some (x, r) | [] => none)
        (fun i => match i with | (x : Nat) :: r => some (x, r) | [] => none) [5, 9, 9]
      = (Except.error "BoundedVec exceeds its limit", [9, 9]) :=
  ((claim_C2_decode_bound_check 2
      (fun i => match i with | x :: r => some (x, r) | [] => none)
      (fun i => match i with | x :: r => some (x, r) | [] => none)
      (fun i => match i with | x :: r => some (x, r) | [] => none)
      [5, 9, 9] 5 [9, 9] rfl).1 (by decide)).1

/-- C5 counterexample: the claim says `try_insert` aborts with the
out-of-range panic for every container state whenever `index > len`, but on a
full container (`len == bound`) the capacity check fires first and the call
returns `Err(element)` instead of panicking. -/
theorem claim_C5_counterexample :
    BoundedVec.try_insert 4 [1, 2, 3, 4] 5 (99 : Nat) = some (Except.error 99)
    ∧ ([1, 2, 3, 4] : List Nat).length < 5 :=
  ⟨rfl, by decide⟩

/-- C5 (amended): whenever the container is not full (`len < bound`),
`try_insert` with `index > len` aborts with the out-of-range panic. -/
theorem claim_C5_try_insert_oob_panics {α : Type} (b index : Nat) (l : List α)
    (element : α) (hcap : l.length < b) (hidx : l.length < index) :
    BoundedVec.try_insert b l index element = none := by
  unfold BoundedVec.try_insert
  rw [if_pos hcap, if_neg (by omega)]

/-- Witness for the amended C5. -/
theorem claim_C5_witness :
    BoundedVec.try_insert 4 [1, 2, 3] 9 (7 : Nat) = none :=
  claim_C5_try_insert_oob_panics 4 9 [1, 2, 3] 7 (by decide) (by decide)

/-- C6 counterexample: the claim says the four checked mutators succeed
exactly when the resulting length fits the bound, with no panic; but
`try_insert` with an out-of-range index panics even though the resulting
length (4, within bound 4) would fit. -/
theorem claim_C6_counterexample :
    BoundedVec.try_insert 4 [1, 2, 3] 9 (0 : Nat) = none
    ∧ ([1, 2, 3] : List Nat).length + 1 ≤ 4 :=
  ⟨rfl, by decide⟩

/-- C6 (amended): `try_push`, `try_extend`, `try_append` — and `try_insert`
restricted to in-range indices (`index <= len`) — succeed exactly when the
resulting length would not exceed the bound; on rejection the container is
unchanged and the rejected element(s) are handed back. -/
theorem claim_C6_checked_mutators {α : Type} (b : Nat) (l w other : List α)
    (index : Nat) (x : α) :
    (l.length + 1 ≤ b → BoundedVec.try_push b l x = Except.ok (l ++ [x]))
    ∧ (b < l.length + 1 → BoundedVec.try_push b l x = Except.error x)
    ∧ (index ≤ l.length →
        (l.length + 1 ≤ b →
          BoundedVec.try_insert b l index x = some (Except.ok (vecInsert index x l)))
        ∧ (b < l.length + 1 →
          BoundedVec.try_insert b l index x = some (Except.error x)))
    ∧ (w.length + l.length ≤ b → BoundedVec.try_extend b l w = Except.ok (l ++ w))
    ∧ (b < w.length + l.length → BoundedVec.try_extend b l w = Except.error ())
    ∧ (other.length + l.length ≤ b →
        BoundedVec.try_append b l other = Except.ok (l ++ other, []))
    ∧ (b < other.length + l.length →
        BoundedVec.try_append b l other = Except.error ()) := by
  unfold BoundedVec.try_push BoundedVec.try_insert BoundedVec.try_extend
    BoundedVec.try_append
  refine ⟨?_, ?_, ?_, ?_, ?_, ?_, ?_⟩
  · intro hle; rw [if_pos (by omega)]
  · intro hgt; rw [if_neg (by omega)]
  · intro hidx
    constructor
    · intro hle; rw [if_pos (by omega), if_pos hidx]
    · intro hgt; rw [if_neg (by omega)]
  · intro hle; rw [if_pos hle]
  · intro hgt; rw [if_neg (by omega)]
  · intro hle; rw [if_pos hle]
  · intro hgt; rw [if_neg (by omega)]

/-- Witness for the amended C6. -/
theorem claim_C6_witness :
    BoundedVec.try_push 3 [1, 2] (5 : Nat) = Except.ok [1, 2, 5] := by
  have h := (claim_C6_checked_mutators 3 [1, 2] [] [] 0 (5 : Nat)).1 (by decide)
  simpa using h

/-- C8: `force_push` is a no-op when the bound is zero; otherwise the result
is the first `bound - 1` old elements (order preserved) with `element` last,
its length is `min(bound, len + 1)`, and on a full container it stays `bound`
with the new element last. -/
theorem claim_C8_force_push {α : Type} (b : Nat) (l : List α) (element : α) :
    (b = 0 → BoundedVec.force_push b l element = l)
    ∧ (0 < b →
        BoundedVec.force_push b l element = l.take (b - 1) ++ [element]
        ∧ (BoundedVec.force_push b l element).length = min b (l.length + 1)
        ∧ (BoundedVec.force_push b l element).getLast? = some element)
    ∧ (0 < b → l.length = b →
        (BoundedVec.force_push b l element).length = b) := by
  have he : 0 < b → BoundedVec.force_push b l element = l.take (b - 1) ++ [element] := by
    intro hb
    unfold BoundedVec.force_push vecTruncate
    rw [if_pos hb]
  refine ⟨?_, fun hb => ⟨he hb, ?_, ?_⟩, fun hb hfull => ?_⟩
  · intro h0
    unfold BoundedVec.force_push
    rw [if_neg (by omega)]
  · rw [he hb]; simp; omega
  · rw [he hb]; exact List.getLast?_concat _
  · rw [he hb]; simp; omega

/-- Witness for C8 on a full container of bound 3. -/
theorem claim_C8_witness :
    BoundedVec.force_push 3 [10, 20, 30] (7 : Nat) = [10, 20, 7] :=
  (((claim_C8_force_push 3 [10, 20, 30] 7).2.1 (by decide)).1).trans (by decide)

/-- C10: on a full container (`len == bound`) `try_insert` returns
`Err(element)` for every index, including out-of-range ones: the capacity
check precedes the index-range check, so no panic occurs when full. -/
theorem claim_C10_try_insert_full {α : Type} (b index : Nat) (l : List α)
    (element : α) (hfull : l.length = b) :
    BoundedVec.try_insert b l index element = some (Except.error element) := by
  unfold BoundedVec.try_insert
  rw [if_neg (by omega)]

/-- Witness for C10 with an out-of-range index on a full container. -/
theorem claim_C10_witness :
    BoundedVec.try_insert 2 [4, 4] 9 (7 : Nat) = some (Except.error 7) :=
  claim_C10_try_insert_full 2 9 [4, 4] 7 (by decide)

end BoundedCollections

namespace BoundedCollections

/-- C1: every construction path (`new`, `try_from`, `truncate_from`,
`try_collect`, decode) yields a container of length at most the bound, and
every mutator of the public interface — checked mutators, forcing mutators,
`bounded_resize` and `try_mutate` — preserves `len <= bound` whenever it
returns successfully; in particular, running any sequence of checked-mutator
calls from a valid container keeps `len <= bound` after every call (every
intermediate state is the run of a prefix). -/
theorem claim_C1_length_invariant {α : Type} (b : Nat) :
    ((BoundedVec.new : List α).length ≤ b)
    ∧ (∀ t r : List α, BoundedVec.try_from b t = Except.ok r → r.length ≤ b)
    ∧ (∀ v : List α, (BoundedVec.truncate_from b v).length ≤ b)
    ∧ (∀ items r : List α, BoundedVec.try_collect b items = Except.ok r → r.length ≤ b)
    ∧ (∀ (decLen : List Nat → Option (Nat × List Nat))
         (decElem : List Nat → Option (α × List Nat)) (input rest : List Nat)
         (r : List α),
         decodeBoundedVec b decLen decElem input = (Except.ok r, rest) → r.length ≤ b)
    ∧ (∀ (l r : List α) (x : α),
         BoundedVec.try_push b l x = Except.ok r → r.length ≤ b)
    ∧ (∀ (l r : List α) (i : Nat) (x : α),
         BoundedVec.try_insert b l i x = some (Except.ok r) → r.length ≤ b)
    ∧ (∀ l w r : List α, BoundedVec.try_extend b l w = Except.ok r → r.length ≤ b)
    ∧ (∀ l other r rem : List α,
         BoundedVec.try_append b l other = Except.ok (r, rem) → r.length ≤ b)
    ∧ (∀ (l r : List α) (mid : Nat), l.length ≤ b →
         BoundedVec.try_rotate_left l mid = Except.ok r → r.length ≤ b)
    ∧ (∀ (l r : List α) (mid : Nat), l.length ≤ b →
         BoundedVec.try_rotate_right l mid = Except.ok r → r.length ≤ b)
    ∧ (∀ (l : List α) (x : α), l.length ≤ b →
         (BoundedVec.force_push b l x).length ≤ b)
    ∧ (∀ (l r : List α) (i : Nat) (x : α) (ev : Option α), l.length ≤ b →
         BoundedVec.force_insert_keep_right b l i x = Except.ok (ev, r) → r.length ≤ b)
    ∧ (∀ (l r : List α) (i : Nat) (x : α) (ev : Option α), l.length ≤ b →
         BoundedVec.force_insert_keep_left b l i x = Except.ok (ev, r) → r.length ≤ b)
    ∧ (∀ (l : List α) (i j : Nat), l.length ≤ b →
         (BoundedVec.slide l i j).2.length ≤ b)
    ∧ (∀ (l : List α) (sz : Nat) (v : α), l.length ≤ b →
         (BoundedVec.bounded_resize b l sz v).length ≤ b)
    ∧ (∀ (l r : List α) (f : List α → List α),
         BoundedVec.try_mutate b l f = some r → r.length ≤ b)
    ∧ (∀ (ops : List (CheckedOp α)) (l l' : List α), l.length ≤ b →
         runChecked b ops l = some l' → l'.length ≤ b) := by
  refine ⟨?_, ?_, ?_, ?_, ?_, ?_, ?_, ?_, ?_, ?_, ?_, ?_, ?_, ?_, ?_, ?_, ?_, ?_⟩
  · simp [BoundedVec.new]
  · intro t r h
    unfold BoundedVec.try_from at h
    split_ifs at h with hc
    cases h
    exact hc
  · intro v
    simp [BoundedVec.truncate_from, vecTruncate]
  · intro items r h
    unfold BoundedVec.try_collect at h
    split_ifs at h with hc
    cases h
    omega
  · intro decLen decElem input rest r h
    cases hl : decLen input with
    | none => simp [decodeBoundedVec, hl] at h
    | some p =>
      obtain ⟨L, rest'⟩ := p
      by_cases hb : b < L
      · simp [decodeBoundedVec, hl, hb] at h
      · cases hd : decodeVecWithLen decElem L rest' with
        | none => simp [decodeBoundedVec, hl, hb, hd] at h
        | some q =>
          obtain ⟨xs, rest₂⟩ := q
          simp [decodeBoundedVec, hl, hb, hd] at h
          obtain ⟨h1, _⟩ := h
          have hx := decodeVecWithLen_length decElem L rest' xs rest₂ hd
          rw [← h1, hx]
          omega
  · intro l r x h
    exact try_push_ok_length b l r x h
  · intro l r i x h
    exact try_insert_ok_length b l r i x h
  · intro l w r h
    exact try_extend_ok_length b l w r h
  · intro l other r rem h
    exact try_append_ok_length b l other r rem h
  · intro l r mid hl h
    rw [try_rotate_left_ok_length l r mid h]
    exact hl
  · intro l r mid hl h
    rw [try_rotate_right_ok_length l r mid h]
    exact hl
  · intro l x hl
    unfold BoundedVec.force_push vecTruncate
    split_ifs with hb
    · simp
      omega
    · exact hl
  · intro l r i x ev hl h
    unfold BoundedVec.force_insert_keep_right at h
    split_ifs at h with h1 h2 h3
    · simp at h
      push_neg at h1
      rw [← h.2, vecInsert_length i x l h1.2]
      omega
    · push_neg at h1
      cases l with
      | nil => simp at h
      | cons y ys =>
        simp at h
        obtain ⟨_, hr⟩ := h
        rw [← hr,
          segRotLeft1_length 0 i (x :: ys) (Nat.zero_le i) (by simpa using h1.2)]
        simpa using hl
  · intro l r i x ev hl h
    unfold BoundedVec.force_insert_keep_left at h
    split_ifs at h with h1 h2 h3
    · push_neg at h1
      have hib : i ≠ b := fun hib => h2 ⟨hib.symm, hl⟩
      have hbl : b ≤ l.length := by simpa [BoundedVec.is_full] using h3
      have ht : l.take b = l := List.take_of_length_le hl
      simp [vecTruncate, ht] at h
      obtain ⟨_, hr⟩ := h
      rw [← hr, vecInsert_length i x l.dropLast (by simp; omega)]
      simp
      omega
    · push_neg at h1
      have hnf : ¬ b ≤ l.length := by simpa [BoundedVec.is_full] using h3
      simp at h
      obtain ⟨_, hr⟩ := h
      rw [← hr, vecInsert_length i x l h1.2.1]
      omega
  · intro l i j hl
    unfold BoundedVec.slide
    split_ifs with h1 h2 h3 h4
    · exact hl
    · exact hl
    · simpa [segRotRight1_length j (i + 1) l (by omega) (by omega)] using hl
    · push_neg at h1
      simpa [segRotLeft1_length i j l (by omega) (by omega)] using hl
    · exact hl
  · intro l sz v hl
    unfold BoundedVec.bounded_resize vecResize
    split_ifs with hc
    · simp
    · simp
      omega
  · intro l r f h
    simp only [BoundedVec.try_mutate] at h
    split_ifs at h with hc
    cases h
    exact hc
  · intro ops
    induction ops with
    | nil =>
      intro l l' hl h
      simp [runChecked] at h
      rw [← h]
      exact hl
    | cons op ops ih =>
      intro l l' hl h
      cases hs : checkedStep b l op with
      | none => simp [runChecked, hs] at h
      | some l₂ =>
        simp [runChecked, hs] at h
        exact ih l₂ l' (checkedStep_length b l l₂ op hl hs) h

/-- Witness for C1: a concrete checked push on a valid container keeps the
invariant. -/
theorem claim_C1_witness : ([5, 6] : List Nat).length ≤ 2 :=
  (claim_C1_length_invariant (α := Nat) 2).2.2.2.2.2.1 [5] [5, 6] 6 rfl

end BoundedCollections

namespace BoundedCollections

theorem vecInsert_succ_cons (k : Nat) (x y : α) (ys : List α) :
    vecInsert (k + 1) x (y :: ys) = y :: vecInsert k x ys := by
  simp [vecInsert]

theorem segRotLeft1_zero_succ_cons (k : Nat) (x : α) (ys : List α) :
    segRotLeft1 0 (k + 1) (x :: ys) = vecInsert k x ys := by
  simp [segRotLeft1, rotLeft1, vecInsert]

theorem append_cons_drop (A B : List α) (x : α) :
    (A ++ x :: B).drop (A.length + 1) = B := by
  rw [← List.drop_drop 1 A.length, List.drop_left]
  rfl

theorem vecInsert_drop_succ (i : Nat) (x : α) (l : List α) (h : i ≤ l.length) :
    (vecInsert i x l).drop (i + 1) = l.drop i := by
  have hA : (l.take i).length = i := by simp; omega
  calc (vecInsert i x l).drop (i + 1)
      = (l.take i ++ x :: l.drop i).drop ((l.take i).length + 1) := by rw [hA]; rfl
    _ = l.drop i := append_cons_drop _ _ _

/-- C3: `force_insert_keep_right` is a no-op returning `Err(element)` when
`index > bound` or `index > len`, and when `index == 0` on a full container;
below capacity it plainly inserts at `index` (`Ok(None)`); on a full container
with `0 < index <= len` it returns `Ok(Some(old head))` — evicting position 0 —
and the final contents are exactly "insert `element` at `index`, then drop the
evicted head": every element at or after `index` keeps its position (the
drop-suffix equation) and the length is unchanged. -/
theorem claim_C3_force_insert_keep_right {α : Type} (b index : Nat) (l : List α)
    (element : α) :
    (b < index ∨ l.length < index →
        BoundedVec.force_insert_keep_right b l index element = Except.error element)
    ∧ (l.length = b → index = 0 →
        BoundedVec.force_insert_keep_right b l index element = Except.error element)
    ∧ (index ≤ l.length → l.length < b →
        BoundedVec.force_insert_keep_right b l index element
          = Except.ok (none, vecInsert index element l))
    ∧ (l.length = b → 0 < index → index ≤ l.length →
        BoundedVec.force_insert_keep_right b l index element
          = Except.ok (l.head?, (vecInsert index element l).drop 1)
        ∧ ((vecInsert index element l).drop 1).drop index = l.drop index
        ∧ ((vecInsert index element l).drop 1).length = l.length) := by
  refine ⟨?_, ?_, ?_, ?_⟩
  · intro h
    unfold BoundedVec.force_insert_keep_right
    rw [if_pos h]
  · intro hfull h0
    subst h0
    unfold BoundedVec.force_insert_keep_right
    rw [if_neg (by omega), if_neg (by omega), if_pos rfl]
  · intro hidx hlt
    unfold BoundedVec.force_insert_keep_right
    rw [if_neg (by omega), if_pos hlt]
  · intro hfull hpos hidx
    obtain ⟨k, rfl⟩ : ∃ k, index = k + 1 := ⟨index - 1, by omega⟩
    cases l with
    | nil => simp at hidx
    | cons y ys =>
      refine ⟨?_, ?_, ?_⟩
      · unfold BoundedVec.force_insert_keep_right
        rw [if_neg (by omega), if_neg (by omega), if_neg (by omega)]
        show Except.ok (some y, segRotLeft1 0 (k + 1) (element :: ys))
          = Except.ok ((y :: ys).head?, (vecInsert (k + 1) element (y :: ys)).drop 1)
        rw [segRotLeft1_zero_succ_cons, vecInsert_succ_cons]
        simp
      · rw [List.drop_drop, show 1 + (k + 1) = (k + 1) + 1 by omega,
          vecInsert_drop_succ (k + 1) element (y :: ys) hidx]
      · simp [List.length_drop, vecInsert_length (k + 1) element (y :: ys) hidx]

/-- Witness for C3 at the spec's worked trace:
`force_insert_keep_right(1, 11)` on `[10,20,30,40]` with bound 4 evicts `10`
and yields `[11,20,30,40]`. -/
theorem claim_C3_witness :
    BoundedVec.force_insert_keep_right 4 [10, 20, 30, 40] 1 (11 : Nat)
      = Except.ok (some 10, [11, 20, 30, 40]) := by
  have h := ((claim_C3_force_insert_keep_right 4 1 [10, 20, 30, 40] 11).2.2.2
      (by decide) (by decide) (by decide)).1
  simpa using h

/-- C4: `force_insert_keep_left` is a no-op returning `Err(element)` exactly
when `bound == 0`, `index > bound`, `index > len`, or `index == bound` on a
full container; below capacity it plainly inserts at `index` (`Ok(None)`); on
a full container with `index < bound` it evicts the last element, returning it
as `Ok(Some(last))`, and inserts `element` at `index` into the remainder
(order of all survivors preserved). -/
theorem claim_C4_force_insert_keep_left {α : Type} (b index : Nat) (l : List α)
    (element : α) (hval : l.length ≤ b) :
    (b = 0 ∨ b < index ∨ l.length < index ∨ (index = b ∧ l.length = b) →
        BoundedVec.force_insert_keep_left b l index element = Except.error element)
    ∧ (index ≤ l.length → l.length < b →
        BoundedVec.force_insert_keep_left b l index element
          = Except.ok (none, vecInsert index element l))
    ∧ (l.length = b → index < b →
        BoundedVec.force_insert_keep_left b l index element
          = Except.ok (l.getLast?, vecInsert index element l.dropLast)) := by
  refine ⟨?_, ?_, ?_⟩
  · intro h
    unfold BoundedVec.force_insert_keep_left
    by_cases h1 : b < index ∨ l.length < index ∨ b = 0
    · rw [if_pos h1]
    · rw [if_neg h1]
      push_neg at h1
      have hd : index = b := by
        rcases h with h | h | h | h
        · omega
        · omega
        · omega
        · exact h.1
      rw [if_pos ⟨hd.symm, hval⟩]
  · intro hidx hlt
    unfold BoundedVec.force_insert_keep_left
    rw [if_neg (by omega), if_neg (by omega),
      if_neg (show ¬BoundedVec.is_full b l = true by
        simp [BoundedVec.is_full]
        omega)]
  · intro hfull hlt
    unfold BoundedVec.force_insert_keep_left
    rw [if_neg (by omega), if_neg (by omega),
      if_pos (show BoundedVec.is_full b l = true by
        simp [BoundedVec.is_full]
        omega)]
    have ht : vecTruncate b l = l := by
      unfold vecTruncate
      exact List.take_of_length_le hval
    simp [ht]

/-- Witness for C4 at the spec's worked trace:
`force_insert_keep_left(0, 1)` on `[10,20,30,40]` with bound 4 evicts `40`
and yields `[1,10,20,30]`. -/
theorem claim_C4_witness :
    BoundedVec.force_insert_keep_left 4 [10, 20, 30, 40] 0 (1 : Nat)
      = Except.ok (some 40, [1, 10, 20, 30]) := by
  have h := (claim_C4_force_insert_keep_left 4 0 [10, 20, 30, 40] 1
      (by decide)).2.2 (by decide) (by decide)
  simpa using h

end BoundedCollections

namespace BoundedCollections

theorem segRotRight1_eq_vecInsert (l : List α) (i ip : Nat) (x : α)
    (hip : ip < i) (hi : i < l.length) (hx : l[i]? = some x) :
    segRotRight1 ip (i + 1) l = vecInsert ip x (l.eraseIdx i) := by
  have hxi : l[i] = x := by
    rw [List.getElem?_eq_getElem hi] at hx
    exact Option.some.inj hx
  have hdropi : l.drop i = x :: l.drop (i + 1) := by
    rw [List.drop_eq_getElem_cons hi, hxi]
  have hlenseg : ((l.drop ip).take (i + 1 - ip)).length = i + 1 - ip := by
    simp
    omega
  have hsegdrop : ((l.drop ip).take (i + 1 - ip)).drop (i - ip) = [x] := by
    rw [List.drop_take, List.drop_drop, show ip + (i - ip) = i by omega,
      show i + 1 - ip - (i - ip) = 1 by omega, hdropi]
    rfl
  have hsegtake : ((l.drop ip).take (i + 1 - ip)).take (i - ip)
      = (l.take i).drop ip := by
    rw [List.take_take, show (i - ip) ⊓ (i + 1 - ip) = i - ip by omega,
      List.take_drop, show ip + (i - ip) = i by omega]
  unfold segRotRight1 rotRight1 vecInsert
  rw [hlenseg, show i + 1 - ip - 1 = i - ip by omega, hsegdrop, hsegtake,
    List.eraseIdx_eq_take_drop_succ, List.take_append_eq_append_take,
    List.drop_append_eq_append_drop, List.take_take,
    show ip ⊓ i = ip by omega]
  have hlt : (l.take i).length = i := by simp; omega
  rw [hlt, show ip - i = 0 by omega]
  simp

theorem segRotLeft1_eq_vecInsert (l : List α) (i ip : Nat) (x : α)
    (hi1 : i + 1 < ip) (hip : ip ≤ l.length) (hx : l[i]? = some x) :
    segRotLeft1 i ip l = vecInsert (ip - 1) x (l.eraseIdx i) := by
  have hi : i < l.length := by omega
  have hxi : l[i] = x := by
    rw [List.getElem?_eq_getElem hi] at hx
    exact Option.some.inj hx
  have hdropi : l.drop i = x :: l.drop (i + 1) := by
    rw [List.drop_eq_getElem_cons hi, hxi]
  have hsegtake1 : ((l.drop i).take (ip - i)).take 1 = [x] := by
    rw [List.take_take, show 1 ⊓ (ip - i) = 1 by omega, hdropi]
    rfl
  have hsegdrop1 : ((l.drop i).take (ip - i)).drop 1
      = (l.drop (i + 1)).take (ip - i - 1) := by
    rw [List.drop_take, List.drop_drop]
  unfold segRotLeft1 rotLeft1 vecInsert
  rw [hsegtake1, hsegdrop1, List.eraseIdx_eq_take_drop_succ,
    List.take_append_eq_append_take, List.drop_append_eq_append_drop,
    List.take_take, show (ip - 1) ⊓ i = i by omega]
  have hlt : (l.take i).length = i := by simp; omega
  rw [hlt,
    show (l.take i).drop (ip - 1) = [] from
      List.drop_eq_nil_of_le (by simp; omega),
    List.drop_drop, show i + 1 + (ip - 1 - i) = ip by omega,
    show ip - 1 - i = ip - i - 1 by omega]
  simp

end BoundedCollections

namespace BoundedCollections

/-- C7: `slide(index, insert_position)` returns `false` and leaves the
contents unchanged exactly when `index >= len`, `insert_position > len`,
`index == insert_position`, or `index + 1 == insert_position`; in every other
case within bounds it returns `true`, is realized as a single rotation of the
sub-range between the two positions (right by one moving backward, left by one
moving forward), and the net effect is to relocate the element at `index` so
it immediately precedes the pre-move `insert_position`, preserving the
relative order of all other elements (the erase/re-insert characterization).
The `index == usize::MAX` guard in the source is subsumed by `len <= index`
for any representable vector, hence the `len <= usize::MAX` hypothesis. -/
theorem claim_C7_slide {α : Type} (l : List α) (index ip : Nat)
    (hsz : l.length ≤ USIZE_MAX) :
    ((BoundedVec.slide l index ip).1 = false ↔
        l.length ≤ index ∨ l.length < ip ∨ index = ip ∨ index + 1 = ip)
    ∧ ((BoundedVec.slide l index ip).1 = false → (BoundedVec.slide l index ip).2 = l)
    ∧ (index < l.length → ip ≤ l.length → index ≠ ip → index + 1 ≠ ip →
        (BoundedVec.slide l index ip).1 = true
        ∧ (ip < index →
            (BoundedVec.slide l index ip).2 = segRotRight1 ip (index + 1) l)
        ∧ (index + 1 < ip →
            (BoundedVec.slide l index ip).2 = segRotLeft1 index ip l)
        ∧ ∀ x, l[index]? = some x →
            (BoundedVec.slide l index ip).2
              = vecInsert (if ip < index then ip else ip - 1) x
                  (l.eraseIdx index)) := by
  by_cases hA : l.length ≤ index ∨ l.length < ip ∨ index = USIZE_MAX
  · have hs : BoundedVec.slide l index ip = (false, l) := by
      unfold BoundedVec.slide
      rw [if_pos hA]
    refine ⟨?_, fun _ => by rw [hs], ?_⟩
    · rw [hs]
      simp
      omega
    · intro hlt hle hne hne1
      exfalso
      omega
  · by_cases hB : index = ip ∨ index + 1 = ip
    · have hs : BoundedVec.slide l index ip = (false, l) := by
        unfold BoundedVec.slide
        rw [if_neg hA, if_pos hB]
      refine ⟨?_, fun _ => by rw [hs], ?_⟩
      · rw [hs]
        simp
        omega
      · intro hlt hle hne hne1
        exfalso
        omega
    · by_cases hC : ip < index
      · have hs : BoundedVec.slide l index ip
            = (true, segRotRight1 ip (index + 1) l) := by
          unfold BoundedVec.slide
          rw [if_neg hA, if_neg hB, if_pos ⟨hC, by omega⟩]
        refine ⟨by rw [hs]; simp; omega, by rw [hs]; simp, ?_⟩
        intro hlt hle hne hne1
        refine ⟨by rw [hs], fun _ => by rw [hs],
          fun hgt => absurd hgt (by omega), ?_⟩
        intro x hx
        rw [hs, if_pos hC]
        exact segRotRight1_eq_vecInsert l index ip x hC (by omega) hx
      · have hgt : index + 1 < ip := by omega
        have hs : BoundedVec.slide l index ip
            = (true, segRotLeft1 index ip l) := by
          unfold BoundedVec.slide
          rw [if_neg hA, if_neg hB, if_neg (by omega), if_pos ⟨by omega, hgt⟩]
        refine ⟨by rw [hs]; simp; omega, by rw [hs]; simp, ?_⟩
        intro hlt hle hne hne1
        refine ⟨by rw [hs], fun hc => absurd hc hC, fun _ => by rw [hs], ?_⟩
        intro x hx
        rw [hs, if_neg hC]
        exact segRotLeft1_eq_vecInsert l index ip x hgt (by omega) hx

/-- Witness for C7 at the spec's worked trace: `slide(1, 5)` on
`[0,1,2,3,4,5]` succeeds and yields `[0,2,3,4,1,5]`. -/
theorem claim_C7_witness :
    (BoundedVec.slide [0, 1, 2, 3, 4, 5] 1 5).1 = true
    ∧ (BoundedVec.slide [0, 1, 2, 3, 4, 5] 1 5).2 = [0, 2, 3, 4, (1 : Nat), 5] := by
  have h := (claim_C7_slide [0, 1, 2, 3, 4, 5] 1 5 (by decide)).2.2
      (by decide) (by decide) (by decide) (by decide)
  exact ⟨h.1, (h.2.2.2 1 rfl).trans (by decide)⟩

/-- C9: equality and ordering between bounded containers depend only on the
element contents, never on the bound: for any two resolved bounds `b₁`, `b₂`,
a `BoundedVec` (or `BoundedSlice`) compares equal to another exactly when the
element sequences are equal, and the (partial) ordering is the lexicographic
ordering of the element sequences. -/
theorem claim_C9_cmp_bound_independent {α : Type} [BEq α] [LawfulBEq α]
    (b₁ b₂ : Nat) (x : BVec α b₁) (y : BVec α b₂) (xs : BSlice α b₁)
    (ys : BSlice α b₂) (pcmp : α → α → Option Ordering) :
    (bvecEq x y = true ↔ x.toList = y.toList)
    ∧ (bvecSliceEq x ys = true ↔ x.toList = ys.toList)
    ∧ (bsliceEq xs ys = true ↔ xs.toList = ys.toList)
    ∧ bvecPartialCmp pcmp x y = listPartialCmp pcmp x.toList y.toList
    ∧ bslicePartialCmp pcmp xs ys = listPartialCmp pcmp xs.toList ys.toList := by
  refine ⟨?_, ?_, ?_, rfl, rfl⟩
  · simp [bvecEq]
  · simp [bvecSliceEq]
  · simp [bsliceEq]

/-- Witness for C9: two containers with different bounds (2 and 5) but the
same contents compare equal. -/
theorem claim_C9_witness :
    bvecEq (α := Nat) (⟨[1, 2], by decide⟩ : BVec Nat 2)
      (⟨[1, 2], by decide⟩ : BVec Nat 5) = true :=
  ((claim_C9_cmp_bound_independent 2 5 (⟨[1, 2], by decide⟩ : BVec Nat 2)
      (⟨[1, 2], by decide⟩ : BVec Nat 5) (⟨[], by decide⟩ : BSlice Nat 2)
      (⟨[], by decide⟩ : BSlice Nat 5) (fun _ _ => none)).1).mpr rfl

end BoundedCollections
